import Mathlib

/-!
SmartGridApplication (ns-3.33, `src/applications/model/smartgrid-application.cc`)

A shallow embedding of the rate-controlled traffic source.  The C++ object is a
record of its member variables; every method is a function on that record.
`none` stands for a fatal abort (`NS_ABORT_*`, `NS_FATAL_ERROR`, `NS_ASSERT`).

Machine integers are natural numbers or integers with the wrap-around written
out: `uint32_t` arithmetic is taken modulo `2^32`, `uint64_t` modulo `2^64`.
The simulator clock and the socket are outside the class: the current time,
the result of `Bind` and the result of `Send` are arguments.
-/

namespace SmartGrid

/-! ## Data model -/

/-- Simulation time (`ns3::Time`), in nanosecond time steps. -/
abbrev Time := Int

/-- Two to the 32: the modulus of `uint32_t` arithmetic. -/
def U32 : Nat := 4294967296

/-- Two to the 64: the modulus of `uint64_t` arithmetic. -/
def U64 : Nat := 18446744073709551616

/-- The kinds of `ns3::Address` that `StartApplication` distinguishes. -/
inductive AddrKind where
  | invalid
  | inet
  | inet6
  | packetSocket
  | other
  deriving DecidableEq, Repr

/-- The fields of `SeqTsSizeHeader` that the application sets: the sequence
number (`SetSeq`), the declared size (`SetSize`) and the time stamp the header
takes at construction. -/
structure SeqTsSizeHeader where
  seq : Nat
  ts : Time
  size : Nat
  deriving DecidableEq, Repr

/-- A packet as the application builds it: a zero-filled payload of a given
length, with the sequencing header in front when there is one. -/
structure Packet where
  payloadSize : Nat
  header : Option SeqTsSizeHeader
  deriving DecidableEq, Repr

/-- The delay handed to `Simulator::Schedule` in `ScheduleNextTx`.
`ofBits bits rate` is `Seconds (bits / static_cast<double> (rate))`, kept as
the pair it is computed from; `ofTime t` is `m_interArrivalTime`. -/
inductive Delay where
  | ofBits (bits : Nat) (bitRate : Nat)
  | ofTime (t : Time)
  deriving DecidableEq, Repr

/-- The member variables of `SmartGridApplication`.  `m_socket` records whether
the pointer is non-null, `socketClosed` whether `Close` was called on it;
`m_sendEvent` is `some d` while a send event scheduled with delay `d` is
running (pending) and `none` when it is expired. -/
structure App where
  m_socket : Bool
  socketClosed : Bool
  m_peer : AddrKind
  m_local : AddrKind
  m_connected : Bool
  m_cbrRate : Nat
  m_cbrRateFailSafe : Nat
  m_pktSize : Nat
  m_residualBits : Nat
  m_lastStartTime : Time
  m_interArrivalTime : Time
  m_maxBytes : Nat
  m_totBytes : Nat
  m_startStopEvent : Bool
  m_sendEvent : Option Delay
  m_seq : Nat
  m_unsentPacket : Option Packet
  m_enableSeqTsSizeHeader : Bool
  deriving DecidableEq, Repr

/-- The object after its constructor and the attribute defaults of
`GetTypeId`: no socket, all counters zero, rate `0kb/s`, no header. -/
def App.initial : App :=
  { m_socket := false, socketClosed := false, m_peer := AddrKind.invalid,
    m_local := AddrKind.invalid, m_connected := false, m_cbrRate := 0,
    m_cbrRateFailSafe := 0, m_pktSize := 0, m_residualBits := 0,
    m_lastStartTime := 0, m_interArrivalTime := 0, m_maxBytes := 0,
    m_totBytes := 0, m_startStopEvent := false, m_sendEvent := none,
    m_seq := 0, m_unsentPacket := none, m_enableSeqTsSizeHeader := false }

/-- `SetMaxBytes`. -/
def SetMaxBytes (a : App) (maxBytes : Nat) : App := { a with m_maxBytes := maxBytes }

/-- `SetPacketSize`. -/
def SetPacketSize (a : App) (pktSize : Nat) : App := { a with m_pktSize := pktSize }

/-- `SetInterArrivalTime`. -/
def SetInterArrivalTime (a : App) (t : Time) : App := { a with m_interArrivalTime := t }

/-- `SetDataRate`. -/
def SetDataRate (a : App) (cbrRate : Nat) : App := { a with m_cbrRate := cbrRate }

/-! ## Arithmetic helpers -/

/-- The conversion `(unsigned) actual` of an `int` to `unsigned int`. -/
def toUnsigned (actual : Int) : Nat := (actual % (U32 : Int)).toNat

/-- The product `m_pktSize * 8` as the code computes it, in `uint32_t`. -/
def pktBits (a : App) : Nat := (a.m_pktSize * 8) % U32

/-- Modelled from the spec: the `ns3::Time` / `int64x64_t` arithmetic
`(delta.To (Time::S) * rate).GetHigh ()` is library code outside the
repository; it is taken as the integer part of the elapsed seconds times the
bit rate, with time steps of one nanosecond. -/
def elapsedBits (delta : Time) (bitRate : Nat) : Int := (delta * (bitRate : Int)) / 1000000000

/-! ## Operations -/

/-- `CancelEvents`: fold the elapsed part of the pending interval into
`m_residualBits` when a send event is running and the rate is the fail-safe
rate, reset the fail-safe rate, cancel both events, drop the cached packet. -/
def CancelEvents (a : App) (now : Time) : App :=
  let residual :=
    if a.m_sendEvent.isSome && decide (a.m_cbrRateFailSafe = a.m_cbrRate) then
      (((a.m_residualBits : Int) + elapsedBits (now - a.m_lastStartTime) a.m_cbrRate)
        % (U32 : Int)).toNat
    else a.m_residualBits
  { a with m_residualBits := residual, m_cbrRateFailSafe := a.m_cbrRate,
           m_sendEvent := none, m_startStopEvent := false, m_unsentPacket := none }

/-- The socket set-up of `StartApplication` when `m_socket` is null: the value
of `ret` after the bind attempt, or `none` on the address-family abort.
`bindRet` is what `Bind` / `Bind6` returns if it is called. -/
def bindSocket (a : App) (bindRet : Int) : Option Int :=
  if a.m_local ≠ AddrKind.invalid then
    if (a.m_peer = AddrKind.inet6 ∧ a.m_local = AddrKind.inet) ∨
       (a.m_peer = AddrKind.inet ∧ a.m_local = AddrKind.inet6) then none
    else some bindRet
  else if a.m_peer = AddrKind.inet6 then some bindRet
  else if a.m_peer = AddrKind.inet ∨ a.m_peer = AddrKind.packetSocket then some bindRet
  else some (-1)

/-- The first block of `StartApplication`: when `m_socket` is null create the
socket, bind it (fatal when `ret` is -1) and connect it; an existing socket is
kept as it is. -/
def createSocket (a : App) (bindRet : Int) : Option App :=
  if a.m_socket then some a
  else
    match bindSocket a bindRet with
    | none => none
    | some ret =>
      if ret = -1 then none
      else some { a with m_socket := true, socketClosed := false }

/-- `StartApplication`: create, bind and connect the socket if there is none,
copy the rate into the fail-safe rate, cancel the events.  The body ends
there. -/
def StartApplication (a : App) (bindRet : Int) (now : Time) : Option App :=
  match createSocket a bindRet with
  | none => none
  | some a1 => some (CancelEvents { a1 with m_cbrRateFailSafe := a1.m_cbrRate } now)

/-- `StopApplication`: cancel the events and close the socket if there is one
(a null socket is only logged). -/
def StopApplication (a : App) (now : Time) : App :=
  let a1 := CancelEvents a now
  if a1.m_socket then { a1 with socketClosed := true } else a1

/-- `ScheduleNextTx`: below the cap (or without one) abort if the residual
bits exceed `m_pktSize * 8`, otherwise schedule the next send after the time
for the remaining bits, or after the inter-arrival time when it is set; at the
cap call `StopApplication`. -/
def ScheduleNextTx (a : App) (now : Time) : Option App :=
  if a.m_maxBytes = 0 ∨ a.m_totBytes < a.m_maxBytes then
    if a.m_residualBits > pktBits a then none
    else
      let bits := pktBits a - a.m_residualBits
      if a.m_interArrivalTime = 0 then
        some { a with m_sendEvent := some (Delay.ofBits bits a.m_cbrRate) }
      else
        some { a with m_sendEvent := some (Delay.ofTime a.m_interArrivalTime) }
  else some (StopApplication a now)

/-- The first part of `SendPacket` (the choice of the packet): the cached
packet if there is one; else, with the header enabled, a new header taking
`m_seq` (post-incremented) and a payload of `m_pktSize` minus the header size,
fatal if `m_pktSize` is smaller than the header; else a plain payload.
`hdrSize` is `header.GetSerializedSize ()`. -/
def buildPacket (hdrSize : Nat) (a : App) (now : Time) : Option (App × Packet) :=
  match a.m_unsentPacket with
  | some p => some (a, p)
  | none =>
    if a.m_enableSeqTsSizeHeader then
      let header : SeqTsSizeHeader := { seq := a.m_seq, ts := now, size := a.m_pktSize }
      let a1 := { a with m_seq := (a.m_seq + 1) % U32 }
      if a.m_pktSize < hdrSize then none
      else some (a1, { payloadSize := a.m_pktSize - hdrSize, header := some header })
    else some (a, { payloadSize := a.m_pktSize, header := none })

/-- The second part of `SendPacket` (what it does with the result of `Send`):
when `(unsigned) actual == m_pktSize` add `m_pktSize` to `m_totBytes` and clear
the cache, otherwise cache the packet. -/
def applySendResult (a : App) (packet : Packet) (actual : Int) : App :=
  if toUnsigned actual = a.m_pktSize then
    { a with m_totBytes := (a.m_totBytes + a.m_pktSize) % U64, m_unsentPacket := none }
  else { a with m_unsentPacket := some packet }

/-- `SendPacket`: assert that the send event is expired, choose the packet,
hand it to the socket (`actual` is what `Send` returns), account for the
result, zero the residual bits, record the time and call `ScheduleNextTx`.
Returns the new object and the packet given to the socket. -/
def SendPacket (hdrSize : Nat) (a : App) (actual : Int) (now : Time) : Option (App × Packet) :=
  if a.m_sendEvent.isSome then none
  else
    match buildPacket hdrSize a now with
    | none => none
    | some (a1, packet) =>
      let a2 := applySendResult a1 packet actual
      let a3 := { a2 with m_residualBits := 0, m_lastStartTime := now }
      match ScheduleNextTx a3 now with
      | none => none
      | some a4 => some (a4, packet)

/-- `ConnectionSucceeded`: the connect callback records the connection. -/
def ConnectionSucceeded (a : App) : App := { a with m_connected := true }

/-- `ConnectionFailed`: the connect-failure callback is `NS_FATAL_ERROR`. -/
def ConnectionFailed (_a : App) : Option App := none

/-- The simulator runs the send event: the event is expired while its handler
`SendPacket` runs. -/
def fireSendEvent (hdrSize : Nat) (a : App) (actual : Int) (now : Time) : Option (App × Packet) :=
  SendPacket hdrSize { a with m_sendEvent := none } actual now

/-! ## Runs -/

/-- What can happen to the application: the two lifecycle calls and the send
event firing, each with what the environment supplies. -/
inductive Event where
  | start (bindRet : Int) (now : Time)
  | stop (now : Time)
  | send (actual : Int) (now : Time)
  deriving DecidableEq, Repr

/-- One event. -/
def step (hdrSize : Nat) (a : App) : Event → Option App
  | Event.start bindRet now => StartApplication a bindRet now
  | Event.stop now => some (StopApplication a now)
  | Event.send actual now => (fireSendEvent hdrSize a actual now).map Prod.fst

/-- A sequence of events, from left to right; `none` once a step aborts. -/
def run (hdrSize : Nat) : App → List Event → Option App
  | a, [] => some a
  | a, e :: es =>
    match step hdrSize a e with
    | none => none
    | some a1 => run hdrSize a1 es

/-- Every `send` of the run happens while a send event is pending, that is,
it is the firing of a timer that `ScheduleNextTx` armed. -/
def timerDriven (hdrSize : Nat) : App → List Event → Bool
  | _, [] => true
  | a, e :: es =>
    (match e with
     | Event.send _ _ => a.m_sendEvent.isSome
     | _ => true) &&
    (match step hdrSize a e with
     | none => true
     | some a1 => timerDriven hdrSize a1 es)

/-! ## Configurations used as concrete inputs -/

/-- Scenario B of the specification: 1024-byte packets at 1 Mb/s, no
inter-arrival time, no cap, an IPv4 peer. -/
def scenarioB : App :=
  { App.initial with m_peer := AddrKind.inet, m_pktSize := 1024, m_cbrRate := 1000000 }

/-- A packet size of 2^29 bytes, whose bit count does not fit 32 bits. -/
def hugePacket : App :=
  { App.initial with m_peer := AddrKind.inet, m_pktSize := 536870912, m_cbrRate := 1000000 }

/-- The huge-packet configuration with a fixed inter-arrival time of one second
and one residual bit. -/
def hugePacketTimed : App :=
  { hugePacket with m_interArrivalTime := 1000000000, m_residualBits := 1 }

/-- 1000-byte packets, rate 0, an inter-arrival time of one second and 8000
residual bits. -/
def timedZeroRate : App :=
  { App.initial with m_pktSize := 1000, m_cbrRate := 0, m_interArrivalTime := 1000000000,
                     m_residualBits := 8000 }

/-- 1000-byte packets at 1 Mb/s without a cap and without a header. -/
def plain1000 : App :=
  { App.initial with m_peer := AddrKind.inet, m_pktSize := 1000, m_cbrRate := 1000000 }

/-- Scenario A as `scratch/SmartGrid.cc` configures it (`SetMaxBytes (1000)`,
`SetPacketSize (1000)`, `SetDataRate ("1500kb/s")`,
`SetInterArrivalTime (Seconds (1))`), with an IPv4 peer. -/
def scenarioA : App :=
  { SetInterArrivalTime (SetDataRate (SetPacketSize (SetMaxBytes App.initial 1000) 1000) 1500000)
      1000000000 with m_peer := AddrKind.inet }

/-- 1000-byte packets at 1 Mb/s, socket open, the send event pending with the
delay for a full packet, last send at time 0. -/
def plain1000Armed : App :=
  { plain1000 with m_socket := true, m_cbrRateFailSafe := 1000000,
                   m_sendEvent := some (Delay.ofBits 8000 1000000) }

/-- 1000-byte packets at 1.5 Gb/s with an inter-arrival time of ten seconds,
socket open, the send event pending, last send at time 0. -/
def timedArmed : App :=
  { App.initial with m_peer := AddrKind.inet, m_pktSize := 1000, m_cbrRate := 1500000000,
                     m_cbrRateFailSafe := 1500000000, m_interArrivalTime := 10000000000,
                     m_socket := true, m_sendEvent := some (Delay.ofTime 10000000000) }

/-! ## Invariant of the byte counter -/

theorem CancelEvents_sendEvent (a : App) (now : Time) :
    (CancelEvents a now).m_sendEvent = none := rfl

theorem StartApplication_sendEvent (a : App) (bindRet : Int) (now : Time) (a1 : App)
    (h : StartApplication a bindRet now = some a1) : a1.m_sendEvent = none := by
  unfold StartApplication at h
  cases hc : createSocket a bindRet with
  | none => rw [hc] at h; cases h
  | some a0 => rw [hc] at h; cases h; rfl

/-- C1 (the code at the claim): `StartApplication` never leaves a send event
pending.  Whatever the object, the bind result and the time, it either aborts
or returns with `m_sendEvent` expired, because its last action is
`CancelEvents` and it schedules nothing; in Scenario B with a valid IPv4 peer
and a successful bind it returns, with no timer armed. -/
theorem StartApplication_leaves_no_send_event :
    (∀ (a : App) (bindRet : Int) (now : Time),
        (StartApplication a bindRet now).bind App.m_sendEvent = none) ∧
    (StartApplication scenarioB 0 0).isSome = true ∧
    (StartApplication scenarioB 0 0).bind App.m_sendEvent = none := by
  refine ⟨?_, by decide, by decide⟩
  intro a bindRet now
  cases h : StartApplication a bindRet now with
  | none => rfl
  | some a1 => exact StartApplication_sendEvent a bindRet now a1 h

/-! ## The delay armed by ScheduleNextTx -/

/-- C3 (counterexample): with a packet size of 2^29 bytes, rate 1 Mb/s, no
inter-arrival time and no residual bits, `ScheduleNextTx` arms the delay for
0 bits, not for the 2^32 bits of the mathematical product. -/
theorem ScheduleNextTx_bits_wrap :
    hugePacket.m_cbrRate > 0 ∧ hugePacket.m_pktSize > 0 ∧ hugePacket.m_pktSize < U32 ∧
    hugePacket.m_interArrivalTime = 0 ∧ hugePacket.m_residualBits = 0 ∧
    (ScheduleNextTx hugePacket 0).bind App.m_sendEvent = some (Delay.ofBits 0 1000000) ∧
    hugePacket.m_pktSize * 8 = 4294967296 := by
  decide

/-- C3 (amended): below the cap, with no inter-arrival time and no residual
bits, `ScheduleNextTx` arms the delay for `(m_pktSize * 8) mod 2^32` bits at
the configured rate; this is the delay for exactly `m_pktSize * 8` bits
whenever that product fits 32 bits (packet sizes below 2^29). -/
theorem ScheduleNextTx_rate_delay (a : App) (now : Time)
    (hcap : a.m_maxBytes = 0 ∨ a.m_totBytes < a.m_maxBytes)
    (hia : a.m_interArrivalTime = 0) (hres : a.m_residualBits = 0) :
    ScheduleNextTx a now =
      some { a with m_sendEvent := some (Delay.ofBits ((a.m_pktSize * 8) % U32) a.m_cbrRate) } ∧
    (a.m_pktSize * 8 < U32 →
      ScheduleNextTx a now =
        some { a with m_sendEvent := some (Delay.ofBits (a.m_pktSize * 8) a.m_cbrRate) }) := by
  have h1 : ScheduleNextTx a now =
      some { a with m_sendEvent := some (Delay.ofBits ((a.m_pktSize * 8) % U32) a.m_cbrRate) } := by
    simp [ScheduleNextTx, hcap, hia, hres, pktBits]
  refine ⟨h1, ?_⟩
  intro hfit
  rw [h1, Nat.mod_eq_of_lt hfit]

/-- C3 (witness): Scenario B, 1024 bytes at 1 Mb/s, arms the delay for 8192
bits at 1 Mb/s. -/
theorem ScheduleNextTx_rate_delay_witness :
    ScheduleNextTx scenarioB 0 =
      some { scenarioB with m_sendEvent := some (Delay.ofBits 8192 1000000) } :=
  (ScheduleNextTx_rate_delay scenarioB 0 (Or.inl rfl) rfl rfl).2 (by decide)

/-- C4 (counterexample): with a packet size of 2^29 bytes, an inter-arrival
time of one second, no cap and a single residual bit (far below the
mathematical `packetSize*8`), `ScheduleNextTx` aborts instead of arming the
inter-arrival delay, because it compares with `m_pktSize * 8` computed in 32
bits, which is 0. -/
theorem ScheduleNextTx_interArrival_abort :
    hugePacketTimed.m_maxBytes = 0 ∧ hugePacketTimed.m_interArrivalTime ≠ 0 ∧
    hugePacketTimed.m_residualBits ≤ hugePacketTimed.m_pktSize * 8 ∧
    hugePacketTimed.m_pktSize < U32 ∧
    ScheduleNextTx hugePacketTimed 0 = none := by
  decide

/-- C4 (amended): below the cap and with a non-zero inter-arrival time,
`ScheduleNextTx` arms exactly the inter-arrival time, for every data rate and
every residual bit count not exceeding `m_pktSize * 8` as the code computes it
(modulo 2^32); nothing else of the object changes. -/
theorem ScheduleNextTx_interArrival_delay (a : App) (now : Time)
    (hcap : a.m_maxBytes = 0 ∨ a.m_totBytes < a.m_maxBytes)
    (hia : a.m_interArrivalTime ≠ 0)
    (hres : a.m_residualBits ≤ (a.m_pktSize * 8) % U32) :
    ScheduleNextTx a now =
      some { a with m_sendEvent := some (Delay.ofTime a.m_interArrivalTime) } := by
  have hres2 : ¬ (a.m_residualBits > pktBits a) := by
    unfold pktBits; omega
  simp [ScheduleNextTx, hcap, hia, hres2]

/-- C4 (witness): 1000-byte packets, rate 0, inter-arrival time one second and
8000 residual bits: the armed delay is one second. -/
theorem ScheduleNextTx_interArrival_delay_witness :
    ScheduleNextTx timedZeroRate 0 =
      some { timedZeroRate with m_sendEvent := some (Delay.ofTime 1000000000) } :=
  ScheduleNextTx_interArrival_delay timedZeroRate 0 (Or.inl rfl) (by decide) (by decide)

/-! ## What each operation does to the byte counter and the send event -/

theorem createSocket_counters (a : App) (bindRet : Int) (a1 : App)
    (h : createSocket a bindRet = some a1) :
    a1.m_totBytes = a.m_totBytes ∧ a1.m_maxBytes = a.m_maxBytes ∧ a1.m_pktSize = a.m_pktSize := by
  unfold createSocket at h
  split at h
  · cases h; exact ⟨rfl, rfl, rfl⟩
  · split at h
    · cases h
    · split at h
      · cases h
      · cases h; exact ⟨rfl, rfl, rfl⟩

theorem StartApplication_counters (a : App) (bindRet : Int) (now : Time) (a1 : App)
    (h : StartApplication a bindRet now = some a1) :
    a1.m_totBytes = a.m_totBytes ∧ a1.m_maxBytes = a.m_maxBytes ∧ a1.m_pktSize = a.m_pktSize := by
  unfold StartApplication at h
  cases hc : createSocket a bindRet with
  | none => rw [hc] at h; cases h
  | some a0 =>
    rw [hc] at h
    cases h
    exact createSocket_counters a bindRet a0 hc

theorem StopApplication_counters (a : App) (now : Time) :
    (StopApplication a now).m_totBytes = a.m_totBytes ∧
    (StopApplication a now).m_maxBytes = a.m_maxBytes ∧
    (StopApplication a now).m_pktSize = a.m_pktSize ∧
    (StopApplication a now).m_sendEvent = none := by
  by_cases hs : (CancelEvents a now).m_socket = true
  · simp only [StopApplication, hs, if_true]
    exact ⟨rfl, rfl, rfl, rfl⟩
  · simp only [StopApplication, hs]
    exact ⟨rfl, rfl, rfl, rfl⟩

theorem buildPacket_counters (hdrSize : Nat) (a : App) (now : Time) (a1 : App) (p : Packet)
    (h : buildPacket hdrSize a now = some (a1, p)) :
    a1.m_totBytes = a.m_totBytes ∧ a1.m_maxBytes = a.m_maxBytes ∧ a1.m_pktSize = a.m_pktSize := by
  unfold buildPacket at h
  split at h
  · cases h; exact ⟨rfl, rfl, rfl⟩
  · split at h
    · split at h
      · cases h
      · cases h; exact ⟨rfl, rfl, rfl⟩
    · cases h; exact ⟨rfl, rfl, rfl⟩

theorem applySendResult_counters (a : App) (p : Packet) (actual : Int) :
    (applySendResult a p actual).m_maxBytes = a.m_maxBytes ∧
    (applySendResult a p actual).m_pktSize = a.m_pktSize ∧
    (applySendResult a p actual).m_totBytes =
      (if toUnsigned actual = a.m_pktSize then (a.m_totBytes + a.m_pktSize) % U64
       else a.m_totBytes) := by
  unfold applySendResult
  split <;> exact ⟨rfl, rfl, rfl⟩

theorem ScheduleNextTx_counters (a : App) (now : Time) (a1 : App)
    (h : ScheduleNextTx a now = some a1) :
    a1.m_maxBytes = a.m_maxBytes ∧ a1.m_pktSize = a.m_pktSize ∧ a1.m_totBytes = a.m_totBytes ∧
    (a1.m_sendEvent.isSome = true ↔ (a.m_maxBytes = 0 ∨ a.m_totBytes < a.m_maxBytes)) := by
  unfold ScheduleNextTx at h
  split at h
  · rename_i hcap
    split at h
    · cases h
    · split at h <;> (cases h; exact ⟨rfl, rfl, rfl, by simp [hcap]⟩)
  · rename_i hcap
    cases h
    obtain ⟨h1, h2, h3, h4⟩ := StopApplication_counters a now
    refine ⟨h2, h3, h1, ?_⟩
    rw [h4]
    simp [hcap]

/-- After `SendPacket` the cap and the packet size are what they were, the
byte counter has grown by the packet size (modulo 2^64) exactly when the send
result converts to the packet size, and a send event is pending exactly when
there is no cap or the counter is still below it. -/
theorem SendPacket_counters (hdrSize : Nat) (a : App) (actual : Int) (now : Time)
    (a1 : App) (p : Packet) (h : SendPacket hdrSize a actual now = some (a1, p)) :
    a1.m_maxBytes = a.m_maxBytes ∧ a1.m_pktSize = a.m_pktSize ∧
    a1.m_totBytes =
      (if toUnsigned actual = a.m_pktSize then (a.m_totBytes + a.m_pktSize) % U64
       else a.m_totBytes) ∧
    (a1.m_sendEvent.isSome = true ↔ (a.m_maxBytes = 0 ∨ a1.m_totBytes < a.m_maxBytes)) := by
  unfold SendPacket at h
  split at h
  · cases h
  · cases hb : buildPacket hdrSize a now with
    | none => rw [hb] at h; cases h
    | some r =>
      obtain ⟨a0, q⟩ := r
      obtain ⟨ht, hm, hp⟩ := buildPacket_counters hdrSize a now a0 q hb
      rw [hb] at h
      simp only at h
      split at h
      · cases h
      · rename_i a4 hs
        cases h
        obtain ⟨k1, k2, k3, k4⟩ := ScheduleNextTx_counters _ now a1 hs
        obtain ⟨r1, r2, r3⟩ := applySendResult_counters a0 _ actual
        simp only at k1 k2 k3 k4
        rw [r1, hm] at k1
        rw [r2, hp] at k2
        rw [r3, hp, ht] at k3
        rw [r1, hm, r3, hp, ht, ← k3] at k4
        exact ⟨k1, k2, k3, k4⟩

/-! ## The byte cap -/

theorem StopApplication_cache (a : App) (now : Time) :
    (StopApplication a now).m_seq = a.m_seq ∧ (StopApplication a now).m_unsentPacket = none := by
  by_cases hs : (CancelEvents a now).m_socket = true
  · simp only [StopApplication, hs, if_true]
    exact ⟨rfl, rfl⟩
  · simp only [StopApplication, hs]
    exact ⟨rfl, rfl⟩

/-- What a returning `SendPacket` went through: the packet choice and the
closing `ScheduleNextTx`. -/
theorem SendPacket_inv (hdrSize : Nat) (a : App) (actual : Int) (now : Time)
    (a1 : App) (p : Packet) (h : SendPacket hdrSize a actual now = some (a1, p)) :
    a.m_sendEvent = none ∧
    ∃ a0, buildPacket hdrSize a now = some (a0, p) ∧
      ScheduleNextTx
        { applySendResult a0 p actual with m_residualBits := 0, m_lastStartTime := now } now
        = some a1 := by
  unfold SendPacket at h
  split at h
  · cases h
  · rename_i he
    refine ⟨by simpa using he, ?_⟩
    cases hb : buildPacket hdrSize a now with
    | none => rw [hb] at h; cases h
    | some r =>
      obtain ⟨a0, q⟩ := r
      rw [hb] at h
      simp only at h
      split at h
      · cases h
      · rename_i a4 hs
        simp only [Option.some.injEq, Prod.mk.injEq] at h
        obtain ⟨h1, h2⟩ := h
        subst h1 h2
        exact ⟨a0, rfl, hs⟩

/-- While no send event is pending, a run of Start, Stop and timer firings
contains no firing that is enabled: the byte counter stays what it is and no
send event becomes pending. -/
theorem run_without_timer (hdrSize : Nat) (evs : List Event) :
    ∀ (a a1 : App), a.m_sendEvent = none → timerDriven hdrSize a evs = true →
      run hdrSize a evs = some a1 →
      a1.m_totBytes = a.m_totBytes ∧ a1.m_sendEvent = none := by
  induction evs with
  | nil =>
    intro a a1 he _ h
    simp only [run, Option.some.injEq] at h
    subst h
    exact ⟨rfl, he⟩
  | cons e es ih =>
    intro a a1 he htd h
    cases hs : step hdrSize a e with
    | none => simp only [run, hs] at h; cases h
    | some a2 =>
      simp only [run, hs] at h
      simp only [timerDriven, hs, Bool.and_eq_true] at htd
      obtain ⟨htd1, htd2⟩ := htd
      cases e with
      | start bindRet now =>
        simp only [step] at hs
        obtain ⟨ht, _, _⟩ := StartApplication_counters a bindRet now a2 hs
        obtain ⟨k1, k2⟩ := ih a2 a1 (StartApplication_sendEvent a bindRet now a2 hs) htd2 h
        exact ⟨k1.trans ht, k2⟩
      | stop now =>
        simp only [step, Option.some.injEq] at hs
        subst hs
        obtain ⟨ht, _, _, he2⟩ := StopApplication_counters a now
        obtain ⟨k1, k2⟩ := ih _ a1 he2 htd2 h
        exact ⟨k1.trans ht, k2⟩
      | send actual now =>
        rw [he] at htd1
        cases htd1

/-- C9 (the code at the claim): 1000-byte packets at 1 Mb/s, no inter-arrival
time.  After Start and one full send at time 0 the next send event is pending
with the delay for 8000 bits (8 ms); Stop at 4.0005 ms folds 4000 bits into
`m_residualBits`; Start again at 5 ms, with the rate unchanged, returns with
those 4000 residual bits and with no send event pending, so no next send is
scheduled at all.  Were the send event run all the same, `SendPacket` would
zero the residual bits and arm the full delay for 8000 bits. -/
theorem restart_schedules_no_send :
    ∃ a1 a2 a3 a4 : App,
      run 20 plain1000 [Event.start 0 0, Event.send 1000 0] = some a1 ∧
      a1.m_sendEvent = some (Delay.ofBits 8000 1000000) ∧
      run 20 plain1000 [Event.start 0 0, Event.send 1000 0, Event.stop 4000500] = some a2 ∧
      a2.m_residualBits = 4000 ∧
      run 20 plain1000 [Event.start 0 0, Event.send 1000 0, Event.stop 4000500,
                        Event.start 0 5000000] = some a3 ∧
      a3.m_cbrRate = a1.m_cbrRate ∧ a3.m_residualBits = 4000 ∧ a3.m_sendEvent = none ∧
      run 20 plain1000 [Event.start 0 0, Event.send 1000 0, Event.stop 4000500,
                        Event.start 0 5000000, Event.send 1000 6000000] = some a4 ∧
      a4.m_residualBits = 0 ∧ a4.m_sendEvent = some (Delay.ofBits 8000 1000000) :=
  ⟨_, _, _, _, rfl, by decide, rfl, by decide, rfl, by decide, by decide, by decide, rfl,
    by decide, by decide⟩

/-- C10 (the code at the claim): in Scenario A, `StartApplication` returns
with no send event pending and nothing sent, and along every run of Start,
Stop and timer firings from there the byte counter stays 0: the generator
sends no packet.  Only if the send event is run without having been armed does
the rest of the scenario follow: one send of 1000 bytes takes `m_totBytes` to
1000, `ScheduleNextTx` takes the Stop branch (the socket is closed) and no
send event is pending. -/
theorem scenarioA_sends_nothing :
    (∃ a1 : App, StartApplication scenarioA 0 0 = some a1 ∧
        a1.m_sendEvent = none ∧ a1.m_totBytes = 0) ∧
    (∀ (evs : List Event) (a1 : App),
        timerDriven 20 scenarioA (Event.start 0 0 :: evs) = true →
        run 20 scenarioA (Event.start 0 0 :: evs) = some a1 →
        a1.m_totBytes = 0 ∧ a1.m_sendEvent = none) ∧
    timerDriven 20 scenarioA [Event.start 0 0, Event.send 1000 0] = false ∧
    (∃ a2 : App, run 20 scenarioA [Event.start 0 0, Event.send 1000 0] = some a2 ∧
        a2.m_totBytes = 1000 ∧ a2.socketClosed = true ∧ a2.m_sendEvent = none) := by
  refine ⟨⟨_, rfl, by decide, by decide⟩, ?_, by decide, ⟨_, rfl, by decide, by decide, by decide⟩⟩
  intro evs a1 htd h
  exact run_without_timer 20 _ scenarioA a1 rfl htd h

/-! ## Stop and CancelEvents -/

theorem CancelEvents_idle (a : App) (now : Time) (he : a.m_sendEvent = none) :
    (CancelEvents a now).m_residualBits = a.m_residualBits := by
  simp [CancelEvents, he]

theorem StopApplication_residualBits (a : App) (now : Time) :
    (StopApplication a now).m_residualBits = (CancelEvents a now).m_residualBits := by
  by_cases hs : (CancelEvents a now).m_socket = true
  · simp only [StopApplication, hs, if_true]
  · simp only [StopApplication, hs]
    rfl

theorem StopApplication_twice (a : App) (now1 now2 : Time) :
    StopApplication (StopApplication a now1) now2 = StopApplication a now1 := by
  by_cases hs : a.m_socket = true
  · simp [StopApplication, CancelEvents, hs]
  · simp [StopApplication, CancelEvents, hs]

/-- C11: in every object with no send event pending, `StopApplication` returns
(it is a total function, and the stop step of a run does not abort) and leaves
`m_totBytes`, `m_seq` and `m_residualBits` unchanged; and from every object a
second `StopApplication` changes nothing the first one left, so Stop followed
by Stop yields the same counters and residual bits as a single Stop. -/
theorem StopApplication_idle_no_change :
    (∀ (hdrSize : Nat) (a : App) (now : Time), a.m_sendEvent = none →
        step hdrSize a (Event.stop now) = some (StopApplication a now) ∧
        (StopApplication a now).m_totBytes = a.m_totBytes ∧
        (StopApplication a now).m_seq = a.m_seq ∧
        (StopApplication a now).m_residualBits = a.m_residualBits) ∧
    (∀ (a : App) (now1 now2 : Time),
        StopApplication (StopApplication a now1) now2 = StopApplication a now1) := by
  refine ⟨?_, StopApplication_twice⟩
  intro hdrSize a now he
  refine ⟨rfl, (StopApplication_counters a now).1, (StopApplication_cache a now).1, ?_⟩
  rw [StopApplication_residualBits, CancelEvents_idle a now he]

/-- C11 (witness): Scenario A after its cap was reached is idle with 1000 bytes
sent; a Stop at 5 s keeps the counters, and a second Stop at 6 s changes
nothing. -/
theorem StopApplication_idle_no_change_witness :
    (StopApplication { scenarioA with m_totBytes := 1000, m_socket := true } 5000000000).m_totBytes
        = 1000 ∧
    StopApplication
        (StopApplication { scenarioA with m_totBytes := 1000, m_socket := true } 5000000000)
        6000000000
      = StopApplication { scenarioA with m_totBytes := 1000, m_socket := true } 5000000000 :=
  ⟨(StopApplication_idle_no_change.1 20 { scenarioA with m_totBytes := 1000, m_socket := true }
      5000000000 rfl).2.1,
   StopApplication_idle_no_change.2 _ 5000000000 6000000000⟩

/-- C12 (counterexample): 1.5 Gb/s with a ten-second inter-arrival time, the
send event pending and the fail-safe rate equal to the rate, no residual bits,
last send at time 0.  `CancelEvents` at 4.000000001 s finds 6000000001 elapsed
bits, but `m_residualBits` is a `uint32_t`: it ends at 1705032705, which is
6000000001 modulo 2^32, not 6000000001 more than before. -/
theorem CancelEvents_residualBits_wrap :
    timedArmed.m_sendEvent.isSome = true ∧
    timedArmed.m_cbrRateFailSafe = timedArmed.m_cbrRate ∧
    timedArmed.m_residualBits = 0 ∧
    elapsedBits (4000000001 - timedArmed.m_lastStartTime) timedArmed.m_cbrRate = 6000000001 ∧
    (CancelEvents timedArmed 4000000001).m_residualBits = 1705032705 ∧
    ((CancelEvents timedArmed 4000000001).m_residualBits : Int) ≠
      (timedArmed.m_residualBits : Int)
        + elapsedBits (4000000001 - timedArmed.m_lastStartTime) timedArmed.m_cbrRate := by
  decide

/-- C12 (amended): `CancelEvents`, for every object and time.  If a send event
is pending and the fail-safe rate equals the configured rate, `m_residualBits`
becomes the old value plus the elapsed bits (the integer part of the seconds
since `m_lastStartTime` times the bit rate) taken modulo 2^32, which is an
increase by exactly the elapsed bits whenever that sum fits 32 bits; otherwise
`m_residualBits` is unchanged.  In both cases the fail-safe rate is the
configured rate afterwards, the configured rate is untouched, no send event is
pending and the cached packet is cleared. -/
theorem CancelEvents_postcondition (a : App) (now : Time) :
    ((a.m_sendEvent.isSome = true ∧ a.m_cbrRateFailSafe = a.m_cbrRate) →
        ((CancelEvents a now).m_residualBits : Int) =
          ((a.m_residualBits : Int) + elapsedBits (now - a.m_lastStartTime) a.m_cbrRate)
            % (U32 : Int) ∧
        ((0 ≤ (a.m_residualBits : Int) + elapsedBits (now - a.m_lastStartTime) a.m_cbrRate ∧
          (a.m_residualBits : Int) + elapsedBits (now - a.m_lastStartTime) a.m_cbrRate
            < (U32 : Int)) →
          ((CancelEvents a now).m_residualBits : Int) =
            (a.m_residualBits : Int) + elapsedBits (now - a.m_lastStartTime) a.m_cbrRate)) ∧
    (¬ (a.m_sendEvent.isSome = true ∧ a.m_cbrRateFailSafe = a.m_cbrRate) →
        (CancelEvents a now).m_residualBits = a.m_residualBits) ∧
    (CancelEvents a now).m_cbrRateFailSafe = a.m_cbrRate ∧
    (CancelEvents a now).m_cbrRate = a.m_cbrRate ∧
    (CancelEvents a now).m_sendEvent = none ∧
    (CancelEvents a now).m_unsentPacket = none := by
  refine ⟨?_, ?_, rfl, rfl, rfl, rfl⟩
  · intro hc
    have hmod : ((CancelEvents a now).m_residualBits : Int) =
        ((a.m_residualBits : Int) + elapsedBits (now - a.m_lastStartTime) a.m_cbrRate)
          % (U32 : Int) := by
      have hpos : (0 : Int) ≤
          ((a.m_residualBits : Int) + elapsedBits (now - a.m_lastStartTime) a.m_cbrRate)
            % (U32 : Int) :=
        Int.emod_nonneg _ (by unfold U32; decide)
      simp only [CancelEvents, hc.1, hc.2, decide_True, Bool.and_self, if_true]
      exact Int.toNat_of_nonneg hpos
    refine ⟨hmod, ?_⟩
    intro hfit
    rw [hmod]
    exact Int.emod_eq_of_lt hfit.1 hfit.2
  · intro hc
    have hcond : (a.m_sendEvent.isSome && decide (a.m_cbrRateFailSafe = a.m_cbrRate)) = false := by
      by_cases h1 : a.m_sendEvent.isSome = true
      · have h2 : ¬ a.m_cbrRateFailSafe = a.m_cbrRate := fun h2 => hc ⟨h1, h2⟩
        simp [h2]
      · simp [h1]
    simp only [CancelEvents, hcond]
    rfl

/-- C12 (witness): 1000-byte packets at 1 Mb/s, the send event pending since
time 0 at the fail-safe rate: `CancelEvents` at 4.0005 ms adds 4000 bits. -/
theorem CancelEvents_postcondition_witness :
    ((CancelEvents plain1000Armed 4000500).m_residualBits : Int) = 0 + 4000 :=
  ((CancelEvents_postcondition plain1000Armed 4000500).1 (by decide)).2 (by decide)

/-! ## The residual bits across SendPacket -/

theorem buildPacket_config (hdrSize : Nat) (a : App) (now : Time) (a1 : App) (p : Packet)
    (h : buildPacket hdrSize a now = some (a1, p)) :
    a1.m_sendEvent = a.m_sendEvent ∧ a1.m_cbrRate = a.m_cbrRate ∧
    a1.m_cbrRateFailSafe = a.m_cbrRateFailSafe ∧
    a1.m_interArrivalTime = a.m_interArrivalTime := by
  unfold buildPacket at h
  split at h
  · cases h; exact ⟨rfl, rfl, rfl, rfl⟩
  · split at h
    · split at h
      · cases h
      · cases h; exact ⟨rfl, rfl, rfl, rfl⟩
    · cases h; exact ⟨rfl, rfl, rfl, rfl⟩

theorem applySendResult_config (a : App) (p : Packet) (actual : Int) :
    (applySendResult a p actual).m_sendEvent = a.m_sendEvent ∧
    (applySendResult a p actual).m_cbrRate = a.m_cbrRate ∧
    (applySendResult a p actual).m_cbrRateFailSafe = a.m_cbrRateFailSafe ∧
    (applySendResult a p actual).m_interArrivalTime = a.m_interArrivalTime := by
  unfold applySendResult
  split <;> exact ⟨rfl, rfl, rfl, rfl⟩

theorem createSocket_config (a : App) (bindRet : Int) (a1 : App)
    (h : createSocket a bindRet = some a1) :
    a1.m_cbrRate = a.m_cbrRate ∧ a1.m_interArrivalTime = a.m_interArrivalTime := by
  unfold createSocket at h
  split at h
  · cases h; exact ⟨rfl, rfl⟩
  · split at h
    · cases h
    · split at h
      · cases h
      · cases h; exact ⟨rfl, rfl⟩

theorem StartApplication_config (a : App) (bindRet : Int) (now : Time) (a1 : App)
    (h : StartApplication a bindRet now = some a1) :
    a1.m_cbrRate = a.m_cbrRate ∧ a1.m_interArrivalTime = a.m_interArrivalTime ∧
    a1.m_cbrRateFailSafe = a.m_cbrRate := by
  unfold StartApplication at h
  cases hc : createSocket a bindRet with
  | none => rw [hc] at h; cases h
  | some a0 =>
    rw [hc] at h
    cases h
    obtain ⟨h1, h2⟩ := createSocket_config a bindRet a0 hc
    exact ⟨h1, h2, h1⟩

theorem StopApplication_config (a : App) (now : Time) :
    (StopApplication a now).m_cbrRate = a.m_cbrRate ∧
    (StopApplication a now).m_interArrivalTime = a.m_interArrivalTime ∧
    (StopApplication a now).m_cbrRateFailSafe = a.m_cbrRate := by
  by_cases hs : (CancelEvents a now).m_socket = true
  · simp only [StopApplication, hs, if_true]
    exact ⟨rfl, rfl, rfl⟩
  · simp only [StopApplication, hs]
    exact ⟨rfl, rfl, rfl⟩

/-- What `ScheduleNextTx` leaves of the rates, and which delay it arms. -/
theorem ScheduleNextTx_config (a : App) (now : Time) (a1 : App)
    (h : ScheduleNextTx a now = some a1) :
    a1.m_cbrRate = a.m_cbrRate ∧ a1.m_interArrivalTime = a.m_interArrivalTime ∧
    (a1.m_cbrRateFailSafe = a.m_cbrRateFailSafe ∨ a1.m_cbrRateFailSafe = a.m_cbrRate) ∧
    (∀ d, a1.m_sendEvent = some d →
        a1.m_cbrRateFailSafe = a.m_cbrRateFailSafe ∧
        d = (if a.m_interArrivalTime = 0 then
               Delay.ofBits (pktBits a - a.m_residualBits) a.m_cbrRate
             else Delay.ofTime a.m_interArrivalTime)) := by
  unfold ScheduleNextTx at h
  split at h
  · split at h
    · cases h
    · split at h
      · rename_i hia
        cases h
        refine ⟨rfl, rfl, Or.inl rfl, ?_⟩
        intro d hd
        simp only [Option.some.injEq] at hd
        rw [if_pos hia]
        exact ⟨rfl, hd.symm⟩
      · rename_i hia
        cases h
        refine ⟨rfl, rfl, Or.inl rfl, ?_⟩
        intro d hd
        simp only [Option.some.injEq] at hd
        rw [if_neg hia]
        exact ⟨rfl, hd.symm⟩
  · cases h
    obtain ⟨h1, h2, h3⟩ := StopApplication_config a now
    refine ⟨h1, h2, Or.inr h3, ?_⟩
    intro d hd
    rw [(StopApplication_counters a now).2.2.2] at hd
    cases hd

/-- What a returning `SendPacket` leaves of the rates, and which delay it
arms: the fail-safe rate is untouched when a send event is armed. -/
theorem SendPacket_config (hdrSize : Nat) (a : App) (actual : Int) (now : Time)
    (a1 : App) (p : Packet) (h : SendPacket hdrSize a actual now = some (a1, p)) :
    a1.m_cbrRate = a.m_cbrRate ∧ a1.m_interArrivalTime = a.m_interArrivalTime ∧
    (a1.m_cbrRateFailSafe = a.m_cbrRateFailSafe ∨ a1.m_cbrRateFailSafe = a.m_cbrRate) ∧
    (∀ d, a1.m_sendEvent = some d →
        a1.m_cbrRateFailSafe = a.m_cbrRateFailSafe ∧
        d = (if a.m_interArrivalTime = 0 then
               Delay.ofBits ((a.m_pktSize * 8) % U32) a.m_cbrRate
             else Delay.ofTime a.m_interArrivalTime)) := by
  obtain ⟨_, a0, hb, hs⟩ := SendPacket_inv hdrSize a actual now a1 p h
  obtain ⟨_, b2, b3, b4⟩ := buildPacket_config hdrSize a now a0 p hb
  obtain ⟨_, _, bp⟩ := buildPacket_counters hdrSize a now a0 p hb
  obtain ⟨_, c2, c3, c4⟩ := applySendResult_config a0 p actual
  obtain ⟨_, cp, _⟩ := applySendResult_counters a0 p actual
  obtain ⟨s1, s2, s3, s4⟩ := ScheduleNextTx_config _ now a1 hs
  simp only [pktBits, Nat.sub_zero] at s1 s2 s3 s4
  rw [c2, b2] at s1
  rw [c4, b4] at s2
  rw [c3, b3, c2, b2] at s3
  rw [c3, b3, c4, b4, cp, bp, c2, b2] at s4
  exact ⟨s1, s2, s3, s4⟩

/-- Every step leaves the configured rate, packet size and inter-arrival time
as they are. -/
theorem step_config (hdrSize : Nat) (a : App) (e : Event) (a1 : App)
    (h : step hdrSize a e = some a1) :
    a1.m_cbrRate = a.m_cbrRate ∧ a1.m_pktSize = a.m_pktSize ∧
    a1.m_interArrivalTime = a.m_interArrivalTime := by
  cases e with
  | start bindRet now =>
    simp only [step] at h
    obtain ⟨h1, h2, _⟩ := StartApplication_config a bindRet now a1 h
    exact ⟨h1, (StartApplication_counters a bindRet now a1 h).2.2, h2⟩
  | stop now =>
    simp only [step, Option.some.injEq] at h
    subst h
    obtain ⟨h1, h2, _⟩ := StopApplication_config a now
    exact ⟨h1, (StopApplication_counters a now).2.2.1, h2⟩
  | send actual now =>
    simp only [step] at h
    cases hf : fireSendEvent hdrSize a actual now with
    | none => rw [hf] at h; cases h
    | some r =>
      obtain ⟨a2, p⟩ := r
      rw [hf] at h
      simp only [Option.map_some', Option.some.injEq] at h
      subst h
      unfold fireSendEvent at hf
      obtain ⟨h1, h2, _, _⟩ := SendPacket_config hdrSize _ actual now a2 p hf
      exact ⟨h1, (SendPacket_counters hdrSize _ actual now a2 p hf).2.1, h2⟩

theorem applySendResult_residualBits (a : App) (p : Packet) (actual : Int) (r : Nat) (t : Time) :
    applySendResult { a with m_residualBits := r, m_lastStartTime := t } p actual =
      { applySendResult a p actual with m_residualBits := r, m_lastStartTime := t } := by
  unfold applySendResult
  split <;> rfl

theorem buildPacket_residualBits (hdrSize : Nat) (a : App) (now : Time) (r : Nat) (t : Time) :
    buildPacket hdrSize { a with m_residualBits := r, m_lastStartTime := t } now =
      (buildPacket hdrSize a now).map
        (fun x => ({ x.1 with m_residualBits := r, m_lastStartTime := t }, x.2)) := by
  unfold buildPacket
  cases hc : a.m_unsentPacket with
  | some q => simp [hc]
  | none =>
    cases hen : a.m_enableSeqTsSizeHeader with
    | false => simp [hc, hen]
    | true =>
      by_cases hlt : a.m_pktSize < hdrSize
      · simp [hc, hen, hlt]
      · simp [hc, hen, hlt]

theorem SendPacket_ignores_residualBits (hdrSize : Nat) (a : App) (actual : Int) (now : Time)
    (r : Nat) (t : Time) :
    SendPacket hdrSize { a with m_residualBits := r, m_lastStartTime := t } actual now =
      SendPacket hdrSize a actual now := by
  unfold SendPacket
  rw [buildPacket_residualBits]
  cases hb : buildPacket hdrSize a now with
  | none => rfl
  | some x =>
    obtain ⟨a0, p⟩ := x
    simp only [Option.map_some', applySendResult_residualBits]

theorem step_armed_delay (hdrSize : Nat) (a : App) (e : Event) (a1 : App)
    (hia : a.m_interArrivalTime = 0) (h : step hdrSize a e = some a1) :
    ∀ d, a1.m_sendEvent = some d →
      d = Delay.ofBits ((a.m_pktSize * 8) % U32) a.m_cbrRate := by
  intro d hd
  cases e with
  | start bindRet now =>
    simp only [step] at h
    rw [StartApplication_sendEvent a bindRet now a1 h] at hd
    cases hd
  | stop now =>
    simp only [step, Option.some.injEq] at h
    subst h
    rw [(StopApplication_counters a now).2.2.2] at hd
    cases hd
  | send actual now =>
    simp only [step] at h
    cases hf : fireSendEvent hdrSize a actual now with
    | none => rw [hf] at h; cases h
    | some q =>
      obtain ⟨a2, p⟩ := q
      rw [hf] at h
      simp only [Option.map_some', Option.some.injEq] at h
      subst h
      unfold fireSendEvent at hf
      obtain ⟨_, _, _, h4⟩ := SendPacket_config hdrSize _ actual now a2 p hf
      obtain ⟨_, hd2⟩ := h4 d hd
      simp only at hd2
      rw [if_pos hia] at hd2
      exact hd2

theorem run_armed_delay (hdrSize : Nat) (es : List Event) :
    ∀ (a a1 : App), a.m_interArrivalTime = 0 →
      (∀ d, a.m_sendEvent = some d →
        d = Delay.ofBits ((a.m_pktSize * 8) % U32) a.m_cbrRate) →
      run hdrSize a es = some a1 →
      ∀ d, a1.m_sendEvent = some d →
        d = Delay.ofBits ((a.m_pktSize * 8) % U32) a.m_cbrRate := by
  induction es with
  | nil =>
    intro a a1 _ harm h
    simp only [run, Option.some.injEq] at h
    subst h
    exact harm
  | cons e es ih =>
    intro a a1 hia harm h
    cases hs : step hdrSize a e with
    | none => simp only [run, hs] at h; cases h
    | some a2 =>
      simp only [run, hs] at h
      obtain ⟨c1, c2, c3⟩ := step_config hdrSize a e a2 hs
      have k := step_armed_delay hdrSize a e a2 hia hs
      have r := ih a2 a1 (c3.trans hia) (by rw [c1, c2]; exact k) h
      rw [c1, c2] at r
      exact r

/-- C15: the only place where a send event is armed is the `ScheduleNextTx`
that closes `SendPacket`, right after `m_residualBits` is zeroed.  So the
outcome of the send event firing, the armed delay included, is the same
whatever `m_residualBits` and `m_lastStartTime` were before; with no
inter-arrival time the delay it arms is the one for `(m_pktSize * 8) mod 2^32`
bits at the configured rate; and after every run of Start, Stop and send steps
from an object with no send event pending, a pending send event has exactly
that delay. -/
theorem armed_delay_ignores_residualBits :
    (∀ (hdrSize : Nat) (a : App) (actual : Int) (now : Time) (r : Nat) (t : Time),
        fireSendEvent hdrSize { a with m_residualBits := r, m_lastStartTime := t } actual now =
          fireSendEvent hdrSize a actual now) ∧
    (∀ (hdrSize : Nat) (a : App) (actual : Int) (now : Time) (a1 : App) (p : Packet) (d : Delay),
        fireSendEvent hdrSize a actual now = some (a1, p) → a.m_interArrivalTime = 0 →
        a1.m_sendEvent = some d →
        d = Delay.ofBits ((a.m_pktSize * 8) % U32) a.m_cbrRate) ∧
    (∀ (hdrSize : Nat) (a a1 : App) (es : List Event) (d : Delay),
        a.m_sendEvent = none → a.m_interArrivalTime = 0 →
        run hdrSize a es = some a1 → a1.m_sendEvent = some d →
        d = Delay.ofBits ((a.m_pktSize * 8) % U32) a.m_cbrRate) := by
  refine ⟨?_, ?_, ?_⟩
  · intro hdrSize a actual now r t
    exact SendPacket_ignores_residualBits hdrSize { a with m_sendEvent := none } actual now r t
  · intro hdrSize a actual now a1 p d h hia hd
    unfold fireSendEvent at h
    obtain ⟨_, _, _, h4⟩ := SendPacket_config hdrSize _ actual now a1 p h
    obtain ⟨_, hd2⟩ := h4 d hd
    simp only at hd2
    rw [if_pos hia] at hd2
    exact hd2
  · intro hdrSize a a1 es d he hia h hd
    refine run_armed_delay hdrSize es a a1 hia ?_ h d hd
    intro d0 hd0
    rw [he] at hd0
    cases hd0

/-- C15 (witness): 1000-byte packets at 1 Mb/s: after Start, a send, a Stop at
4.0005 ms that leaves 4000 residual bits, a second Start and another send, the
pending send event has the delay for 8000 bits at 1 Mb/s. -/
theorem armed_delay_ignores_residualBits_witness :
    ∃ a1 : App,
      run 20 plain1000 [Event.start 0 0, Event.send 1000 0, Event.stop 4000500,
                        Event.start 0 5000000, Event.send 1000 6000000] = some a1 ∧
      a1.m_sendEvent = some (Delay.ofBits 8000 1000000) ∧
      Delay.ofBits 8000 1000000 =
        Delay.ofBits ((plain1000.m_pktSize * 8) % U32) plain1000.m_cbrRate :=
  ⟨_, rfl, rfl,
    armed_delay_ignores_residualBits.2.2 20 plain1000 _
      [Event.start 0 0, Event.send 1000 0, Event.stop 4000500,
       Event.start 0 5000000, Event.send 1000 6000000]
      (Delay.ofBits 8000 1000000) rfl rfl rfl rfl⟩

end SmartGrid
